import Mathlib

/-!
Verification of the spatial-simulation core of an Advent-of-Code repository:
the `Coord`/`Direction` primitives and generic `Grid` container (util/grid.rs),
and the day-07 beam-propagation simulator with its memoized quantum path
counter (day07.rs). Every definition below is a shallow embedding of the
corresponding Rust item; machine integers are modelled as `Int`/`Nat`
(`u64` addition carries an explicit `% 2 ^ 64`), fallible operations return
`Option`, and the simulator's `loop` is given explicit fuel, returning `none`
only when the fuel runs out before the loop's own exit condition fires.
-/

namespace AoC

/-- A coordinate in a grid (row, col); `Coord` in util/grid.rs. -/
structure Coord where
  row : Int
  col : Int
deriving DecidableEq, Repr

/-- Embedding of `Relative` in util/grid.rs: relative direction for turning. -/
inductive Relative where
  | Left
  | Right
  | Back
deriving DecidableEq, Repr

/-- Embedding of `Direction4` in util/grid.rs: the 4 cardinal directions. -/
inductive Direction4 where
  | North
  | East
  | South
  | West
deriving DecidableEq, Repr

/-- Embedding of `Direction4::ALL`: all directions in clockwise order starting from North. -/
def Direction4.ALL : List Direction4 :=
  [Direction4.North, Direction4.East, Direction4.South, Direction4.West]

/-- Embedding of `Direction4::delta`. -/
def Direction4.delta : Direction4 → Int × Int
  | Direction4.North => (-1, 0)
  | Direction4.East => (0, 1)
  | Direction4.South => (1, 0)
  | Direction4.West => (0, -1)

/-- Embedding of `Direction4::turn`: `ALL.iter().position(...)` is `List.findIdx`, and the
indexing `ALL[(current_idx + offset) % 4]` is in-range indexing (`getD`). -/
def Direction4.turn (d : Direction4) (relative : Relative) (steps : Nat) : Direction4 :=
  let currentIdx := Direction4.ALL.findIdx (fun x => decide (x = d))
  let offset := match relative with
    | Relative.Right => steps
    | Relative.Left => 4 - steps % 4
    | Relative.Back => 2
  Direction4.ALL.getD ((currentIdx + offset) % 4) Direction4.North

/-- Embedding of `Direction8` in util/grid.rs: the 8 cardinal + diagonal directions. -/
inductive Direction8 where
  | North
  | NorthEast
  | East
  | SouthEast
  | South
  | SouthWest
  | West
  | NorthWest
deriving DecidableEq, Repr

/-- Embedding of `Direction8::ALL`: all directions in clockwise order starting from North. -/
def Direction8.ALL : List Direction8 :=
  [Direction8.North, Direction8.NorthEast, Direction8.East, Direction8.SouthEast,
   Direction8.South, Direction8.SouthWest, Direction8.West, Direction8.NorthWest]

/-- Embedding of `Direction8::turn`. -/
def Direction8.turn (d : Direction8) (relative : Relative) (steps : Nat) : Direction8 :=
  let currentIdx := Direction8.ALL.findIdx (fun x => decide (x = d))
  let offset := match relative with
    | Relative.Right => steps
    | Relative.Left => 8 - steps % 8
    | Relative.Back => 4
  Direction8.ALL.getD ((currentIdx + offset) % 8) Direction8.North

/-- Embedding of `Coord::step` (specialised to `Direction4`, the only instantiation the
day-07 simulator uses): move in a direction by the given number of steps. -/
def Coord.step (c : Coord) (direction : Direction4) (steps : Int) : Coord :=
  let (dr, dc) := direction.delta
  { row := c.row + dr * steps, col := c.col + dc * steps }

/-- Embedding of `Coord::as_unsigned`: convert to a `Nat` pair if both coordinates are
non-negative. -/
def Coord.as_unsigned (c : Coord) : Option (Nat × Nat) :=
  if c.row ≥ 0 ∧ c.col ≥ 0 then some (c.row.toNat, c.col.toNat) else none

/-- Embedding of `Grid<T>` in util/grid.rs: width, height and a dense row-major backing
store of optional cell values. -/
structure Grid (T : Type) where
  width : Nat
  height : Nat
  cells : List (Option T)
deriving DecidableEq, Repr

namespace Grid

variable {T : Type}

/-- Embedding of `Grid::from_vec`: build from a 2D row-major vector; width is the first
row's length (0 if no rows). -/
def from_vec (data : List (List T)) : Grid T :=
  { height := data.length
    width := (data.headD []).length
    cells := (data.map (fun row => row.map some)).flatten }

/-- Embedding of `Grid::index`: convert (row, col) to a linear index, when in range. -/
def index (g : Grid T) (row col : Nat) : Option Nat :=
  if row < g.height ∧ col < g.width then some (row * g.width + col) else none

/-- Embedding of `Grid::in_bounds`. -/
def in_bounds (g : Grid T) (coord : Coord) : Bool :=
  coord.row ≥ 0 && coord.col ≥ 0 &&
    coord.row.toNat < g.height && coord.col.toNat < g.width

/-- Embedding of `Grid::get`: the cell contents at a coordinate, `none` on out-of-range
coordinates or empty cells. -/
def get (g : Grid T) (coord : Coord) : Option T :=
  match coord.as_unsigned with
  | none => none
  | some (row, col) =>
    match g.index row col with
    | none => none
    | some idx => g.cells.getD idx none

/-- Embedding of `Grid::set`: write a cell, returning the updated grid and the previous
value (`Option::replace`); a no-op returning `none` when out of range. -/
def set (g : Grid T) (coord : Coord) (value : T) : Grid T × Option T :=
  match coord.as_unsigned with
  | none => (g, none)
  | some (row, col) =>
    match g.index row col with
    | none => (g, none)
    | some idx => ({ g with cells := g.cells.set idx (some value) }, g.cells.getD idx none)

/-- Embedding of `Grid::take`: take the value from a cell, leaving `none`; a no-op
returning `none` when out of range. -/
def take (g : Grid T) (coord : Coord) : Grid T × Option T :=
  match coord.as_unsigned with
  | none => (g, none)
  | some (row, col) =>
    match g.index row col with
    | none => (g, none)
    | some idx => ({ g with cells := g.cells.set idx none }, g.cells.getD idx none)

/-- Embedding of `Grid::clear`, which just calls `Grid::take`. -/
def clear (g : Grid T) (coord : Coord) : Grid T × Option T :=
  g.take coord

/-- Embedding of `Grid::swap`: swap the contents of two cells; `false` (and no mutation)
when either coordinate is out of range. -/
def swap (g : Grid T) (a b : Coord) : Grid T × Bool :=
  match a.as_unsigned with
  | none => (g, false)
  | some (rowA, colA) =>
    match b.as_unsigned with
    | none => (g, false)
    | some (rowB, colB) =>
      match g.index rowA colA with
      | none => (g, false)
      | some idxA =>
        match g.index rowB colB with
        | none => (g, false)
        | some idxB =>
          ({ g with cells :=
              (g.cells.set idxA (g.cells.getD idxB none)).set idxB (g.cells.getD idxA none) },
           true)

/-- Embedding of `Grid::move_to`: `take(from)?` then `set(to, value)`. -/
def move_to (g : Grid T) (src dst : Coord) : Grid T × Option T :=
  let (g1, value) := g.take src
  match value with
  | none => (g1, none)
  | some v => g1.set dst v

/-- Embedding of `Grid::enumerate`: every linear index paired with its coordinate and
(possibly absent) cell value, row-major. -/
def enumerate (g : Grid T) : List (Coord × Option T) :=
  (List.range g.cells.length).map
    (fun i => ({ row := (i / g.width : Nat), col := (i % g.width : Nat) }, g.cells.getD i none))

/-- Embedding of `Grid::iter_filled`: `enumerate` restricted to present values. -/
def iter_filled (g : Grid T) : List (Coord × T) :=
  g.enumerate.filterMap (fun p => p.2.map (fun v => (p.1, v)))

end Grid

/-- Embedding of `Component` in day07.rs: the grid cell payload for the simulator. -/
inductive Component where
  | Empty
  | Entrance
  | Splitter
  | Beam
deriving DecidableEq, Repr

/-- Embedding of `Beam` in day07.rs. The Rust field `end` is a Lean keyword and is
embedded as `end_`. -/
structure Beam where
  start : Coord
  current : Coord
  end_ : Option Coord
  split : Bool
  out_of_bounds : Bool
deriving DecidableEq, Repr

/-- Embedding of `Beam::new`. -/
def Beam.new (start : Coord) : Beam :=
  { start := start, current := start, end_ := none, split := false, out_of_bounds := false }

/-- Embedding of `Beam::is_active`. -/
def Beam.is_active (b : Beam) : Bool :=
  b.end_.isNone

/-- Embedding of `Manifold` in day07.rs. The `HashMap<Coord, u64>` memoization cache is
embedded as an association list with `u64` counts as `Nat` (additions are
reduced `% 2 ^ 64` where they occur). -/
structure Manifold where
  grid : Grid Component
  beams : List Beam
  manifold_cache : List (Coord × Nat)
deriving DecidableEq, Repr

/-- One character of `Manifold::from_input`'s parser; the Rust
`unreachable!()` arm is `none`. -/
def parseComponent : Char → Option Component
  | '.' => some Component.Empty
  | 'S' => some Component.Entrance
  | '^' => some Component.Splitter
  | _ => none

/-- One line of `Manifold::from_input`'s parser (the inner `chars().map`
collect): `none` when any character is unrecognized. -/
def parseLine : List Char → Option (List Component)
  | [] => some []
  | c :: rest =>
    match parseComponent c, parseLine rest with
    | some comp, some comps => some (comp :: comps)
    | _, _ => none

/-- All lines of `Manifold::from_input`'s parser (the outer `lines().map`
collect). -/
def parseLines : List (List Char) → Option (List (List Component))
  | [] => some []
  | l :: rest =>
    match parseLine l, parseLines rest with
    | some row, some rows => some (row :: rows)
    | _, _ => none

namespace Manifold

/-- Embedding of `Manifold::from_input`, taking the input already split into its
(trimmed) lines as character lists; `none` when any character is
unrecognized (the Rust code panics there). -/
def from_input (lines : List (List Char)) : Option Manifold :=
  (parseLines lines).map
    (fun data => { grid := Grid.from_vec data, beams := [], manifold_cache := [] })

/-- Embedding of `Manifold::start`: the coordinate of the first `Entrance` cell; `none`
when there is none (the Rust code unwraps and would panic). -/
def start (m : Manifold) : Option Coord :=
  (m.grid.iter_filled.find? (fun p => decide (p.2 = Component.Entrance))).map (fun p => p.1)

/-- Embedding of `Manifold::insert_beam`: dedup by current coordinate, else push. -/
def insert_beam (m : Manifold) (beam : Beam) : Manifold :=
  if m.beams.any (fun b => decide (b.current = beam.current)) then m
  else { m with beams := m.beams ++ [beam] }

end Manifold

/-- The mutable state threaded through one tick of `Manifold::run`'s loop:
the grid (mutated in place by the Rust loop body), the `new_beams`
accumulator and the `beams_processed` counter. -/
structure TickState where
  grid : Grid Component
  new_beams : List Beam
  processed : Nat
deriving DecidableEq, Repr

/-- The body of the `for beam in self.beams.iter_mut()` loop in
`Manifold::run`: process one beam against the current (mid-tick) state,
returning the updated beam and state. -/
def stepBeam (st : TickState) (beam : Beam) : Beam × TickState :=
  if ¬ beam.is_active then (beam, st)
  else
    let next_coord := beam.current.step Direction4.South 1
    if ¬ st.grid.in_bounds next_coord then
      ({ beam with out_of_bounds := true }, st)
    else
      match st.grid.get next_coord with
      | some Component.Splitter =>
        let beam1 := { beam with current := next_coord, end_ := some next_coord, split := true }
        let west := next_coord.step Direction4.West 1
        let east := next_coord.step Direction4.East 1
        let st1 :=
          if st.grid.in_bounds west then
            { st with new_beams := st.new_beams ++ [Beam.new west]
                      grid := (st.grid.set west Component.Beam).1 }
          else st
        let st2 :=
          if st1.grid.in_bounds east then
            { st1 with new_beams := st1.new_beams ++ [Beam.new east]
                       grid := (st1.grid.set east Component.Beam).1 }
          else st1
        (beam1, { st2 with processed := st2.processed + 1 })
      | some _ =>
        ({ beam with current := next_coord },
         { st with grid := (st.grid.set next_coord Component.Beam).1
                   processed := st.processed + 1 })
      | none =>
        (beam, { st with processed := st.processed + 1 })

/-- The whole `for` loop of one tick: fold `stepBeam` over the beam list in
order, returning the updated beams and final state. -/
def tickBeams (st : TickState) : List Beam → List Beam × TickState
  | [] => ([], st)
  | b :: rest =>
    let (b1, st1) := stepBeam st b
    let (rest1, st2) := tickBeams st1 rest
    (b1 :: rest1, st2)

/-- One iteration of `Manifold::run`'s `loop`: process all current beams,
then insert the newly spawned beams; returns the new manifold and the
tick's `beams_processed` count. -/
def Manifold.tick (m : Manifold) : Manifold × Nat :=
  let (beams1, st) := tickBeams { grid := m.grid, new_beams := [], processed := 0 } m.beams
  let m1 := { m with grid := st.grid, beams := beams1 }
  (st.new_beams.foldl Manifold.insert_beam m1, st.processed)

/-- The `loop` of `Manifold::run` with explicit fuel: exits (successfully)
exactly when a full tick processes zero beams; `none` when the fuel runs
out first. -/
def Manifold.runAux : Nat → Manifold → Option Manifold
  | 0, _ => none
  | fuel + 1, m =>
    let (m1, processed) := m.tick
    if processed = 0 then some m1 else Manifold.runAux fuel m1

/-- The seeding step of `Manifold::run`: insert the entrance beam. -/
def Manifold.simInit (m : Manifold) : Option Manifold :=
  (m.start).map (fun s => m.insert_beam (Beam.new s))

/-- Embedding of `Manifold::run`: seed the entrance beam, then loop until a tick
processes zero beams. -/
def Manifold.run (m : Manifold) (fuel : Nat) : Option Manifold := do
  let m0 ← m.simInit
  Manifold.runAux fuel m0

/-- The manifold state after seeding and `n` ticks (used to express
state-at-every-point properties of the simulation). -/
def Manifold.afterTicks (m : Manifold) : Nat → Manifold
  | 0 => m
  | n + 1 => (m.afterTicks n).tick.1

/-- Embedding of `Manifold::inactive_beams`. -/
def Manifold.inactive_beams (m : Manifold) : List Beam :=
  m.beams.filter (fun b => ¬ b.is_active)

/-- Embedding of `HashMap::get` on the memoization cache. -/
def cacheLookup (cache : List (Coord × Nat)) (pos : Coord) : Option Nat :=
  (cache.find? (fun p => decide (p.1 = pos))).map (fun p => p.2)

/-- Embedding of `HashMap::insert` on the memoization cache: overwrite the binding when
the key is present, else append it. -/
def cacheInsert (cache : List (Coord × Nat)) (pos : Coord) (v : Nat) : List (Coord × Nat) :=
  if cache.any (fun p => decide (p.1 = pos)) then
    cache.map (fun p => if p.1 = pos then (pos, v) else p)
  else cache ++ [(pos, v)]

/-- Embedding of `Manifold::count_quantum_manifolds`, with the cache threaded explicitly
and fuel for the recursion (the Rust recursion always terminates because
the row strictly increases; `none` means the fuel ran out first, and every
`some` result is the value the Rust recursion computes). The `u64` sum
carries an explicit `% 2 ^ 64`. -/
def countQM (g : Grid Component) : Nat → List (Coord × Nat) → Coord →
    Option (List (Coord × Nat) × Nat)
  | 0, _, _ => none
  | fuel + 1, cache, pos =>
    match cacheLookup cache pos with
    | some count => some (cache, count)
    | none =>
      let next := pos.step Direction4.South 1
      if ¬ g.in_bounds next then some (cache, 1)
      else
        match (match g.get next with
          | some Component.Splitter =>
            match countQM g fuel cache (next.step Direction4.West 1) with
            | none => none
            | some (cacheL, cl) =>
              match countQM g fuel cacheL (next.step Direction4.East 1) with
              | none => none
              | some (cacheR, cr) => some (cacheR, (cl + cr) % 2 ^ 64)
          | _ => countQM g fuel cache next) with
        | none => none
        | some (cache1, count) => some (cacheInsert cache1 pos count, count)

/-- The 15-column reference fixture grid from day07.rs's tests. -/
def TEST_INPUT : List (List Char) :=
  [".......S.......".toList,
   "...............".toList,
   ".......^.......".toList,
   "...............".toList,
   "......^.^......".toList,
   "...............".toList,
   ".....^.^.^.....".toList,
   "...............".toList,
   "....^.^...^....".toList,
   "...............".toList,
   "...^.^...^.^...".toList,
   "...............".toList,
   "..^...^.....^..".toList,
   "...............".toList,
   ".^.^.^.^.^...^.".toList,
   "...............".toList]

/-- Number of tracked beams whose `current` coordinate is `c`. -/
def occCount (bs : List Beam) (c : Coord) : Nat :=
  (bs.filter (fun b => decide (b.current = c))).length

/-- A manifold with an empty 0-by-0 grid (used as an `Option.getD`
default for concrete states below). -/
def emptyManifold : Manifold :=
  { grid := { width := 0, height := 0, cells := [] }, beams := [], manifold_cache := [] }

/-- A default beam for `List.getD` on beam lists. -/
def dfltBeam : Beam := Beam.new { row := 0, col := 0 }

/-- A 1-by-1 grid holding the value 7 (a concrete `Grid` instance). -/
def gOne : Grid Nat := Grid.from_vec [[7]]

/-- A 1-column, 2-row all-empty component grid (a concrete instance for the
path counter). -/
def gridV : Grid Component := Grid.from_vec [[Component.Empty], [Component.Empty]]

/-- A 4-row grid whose last row has two adjacent splitters; in the third
tick an earlier beam's splitter hit overwrites the splitter at (3,4) with a
beam-occupancy mark before a later beam of the same tick steps into it. -/
def cexLines : List (List Char) :=
  ["....S...".toList,
   "....^...".toList,
   "...^....".toList,
   "....^^..".toList]

/-- The 1-by-1 entrance-only input. -/
def oneCellLines : List (List Char) := [['S']]

/-- The manifold parsed from the 1-by-1 entrance-only input. -/
def mS : Manifold := (Manifold.from_input oneCellLines).getD emptyManifold

/-- The state of `mS` after seeding the entrance beam. -/
def m1x1 : Manifold := (mS.simInit).getD emptyManifold

/-- The state of the `cexLines` simulation at the start of its third tick:
seeded, then two ticks run. -/
def cexM2 : Manifold :=
  (((Manifold.from_input cexLines).bind Manifold.simInit).map
    (fun m0 => m0.afterTicks 2)).getD emptyManifold

/-- The concrete manifold parsed from the reference fixture. -/
def mFix : Manifold := (Manifold.from_input TEST_INPUT).getD emptyManifold

/-- A concrete manifold with one tracked beam (for dedup instances). -/
def mW : Manifold := { grid := gridV, beams := [dfltBeam], manifold_cache := [] }

/-- Termination potential of one beam: 0 once terminated by a splitter,
otherwise exponential in the number of rows left above the grid's bottom. -/
def beamPot (h : Nat) (b : Beam) : Nat :=
  if b.end_.isSome then 0 else 3 ^ ((h : Int) - b.current.row).toNat

/-- Total potential of a beam list. -/
def potSum (h : Nat) (bs : List Beam) : Nat := (bs.map (beamPot h)).sum

/-- Termination measure of a manifold state. -/
def muPot (m : Manifold) : Nat := potSum m.grid.height m.beams

/-- Well-formedness of a simulator grid: the backing store has exactly
`width * height` cells and every cell is present (as `Grid::from_vec`
produces from a rectangular parse). -/
def WFcells (g : Grid Component) : Prop :=
  g.cells.length = g.width * g.height ∧ ∀ x ∈ g.cells, x ≠ none

/-- The two results queried after running the simulation on an input, as
`crate::day07::run` computes them: part 1 is `inactive_beams().len()` on
the run manifold, part 2 is `count_quantum_manifolds(start)` on the run
manifold (with its then-empty cache). -/
def simResults (lines : List (List Char)) (fuel : Nat) : Option (Nat × Nat) := do
  let m ← Manifold.from_input lines
  let m1 ← m.run fuel
  let s ← m1.start
  let (_, cnt) ← countQM m1.grid fuel m1.manifold_cache s
  pure (m1.inactive_beams.length, cnt)

/-! ## Direction lemmas -/

theorem turn4_def (d : Direction4) (r : Relative) (n : Nat) :
    d.turn r n = Direction4.ALL.getD
      ((Direction4.ALL.findIdx (fun x => decide (x = d)) +
        (match r with
         | Relative.Right => n
         | Relative.Left => 4 - n % 4
         | Relative.Back => 2)) % 4) Direction4.North := rfl

theorem turn8_def (d : Direction8) (r : Relative) (n : Nat) :
    d.turn r n = Direction8.ALL.getD
      ((Direction8.ALL.findIdx (fun x => decide (x = d)) +
        (match r with
         | Relative.Right => n
         | Relative.Left => 8 - n % 8
         | Relative.Back => 4)) % 8) Direction8.North := rfl

theorem findIdx4_lt (d : Direction4) :
    Direction4.ALL.findIdx (fun x => decide (x = d)) < 4 := by
  cases d <;> decide

theorem getD_findIdx4 (d : Direction4) :
    Direction4.ALL.getD (Direction4.ALL.findIdx (fun x => decide (x = d)))
      Direction4.North = d := by
  cases d <;> decide

theorem findIdx4_getD (j : Nat) (h : j < 4) :
    Direction4.ALL.findIdx
      (fun x => decide (x = Direction4.ALL.getD j Direction4.North)) = j := by
  interval_cases j <;> decide

theorem findIdx8_lt (d : Direction8) :
    Direction8.ALL.findIdx (fun x => decide (x = d)) < 8 := by
  cases d <;> decide

theorem getD_findIdx8 (d : Direction8) :
    Direction8.ALL.getD (Direction8.ALL.findIdx (fun x => decide (x = d)))
      Direction8.North = d := by
  cases d <;> decide

theorem findIdx8_getD (j : Nat) (h : j < 8) :
    Direction8.ALL.findIdx
      (fun x => decide (x = Direction8.ALL.getD j Direction8.North)) = j := by
  interval_cases j <;> decide

theorem turn4_right_left (d : Direction4) (n : Nat) :
    (d.turn Relative.Right n).turn Relative.Left n = d := by
  rw [turn4_def, turn4_def]
  rw [findIdx4_getD _ (Nat.mod_lt _ (by norm_num))]
  have hi := findIdx4_lt d
  have hidx : ((Direction4.ALL.findIdx (fun x => decide (x = d)) + n) % 4 + (4 - n % 4)) % 4
      = Direction4.ALL.findIdx (fun x => decide (x = d)) := by omega
  rw [hidx]
  exact getD_findIdx4 d

theorem turn8_right_left (d : Direction8) (n : Nat) :
    (d.turn Relative.Right n).turn Relative.Left n = d := by
  rw [turn8_def, turn8_def]
  rw [findIdx8_getD _ (Nat.mod_lt _ (by norm_num))]
  have hi := findIdx8_lt d
  have hidx : ((Direction8.ALL.findIdx (fun x => decide (x = d)) + n) % 8 + (8 - n % 8)) % 8
      = Direction8.ALL.findIdx (fun x => decide (x = d)) := by omega
  rw [hidx]
  exact getD_findIdx8 d

/-- C8: for every direction value of either capability, turning right by the
arity (4 resp. 8) is the identity, and turning right by any `n` and then
left by the same `n` is the identity. -/
theorem C8_turn_right_arity_and_right_left_inverse
    (d4 : Direction4) (d8 : Direction8) (n : Nat) :
    d4.turn Relative.Right 4 = d4 ∧
    (d4.turn Relative.Right n).turn Relative.Left n = d4 ∧
    d8.turn Relative.Right 8 = d8 ∧
    (d8.turn Relative.Right n).turn Relative.Left n = d8 := by
  refine ⟨?_, turn4_right_left d4 n, ?_, turn8_right_left d8 n⟩
  · cases d4 <;> decide
  · cases d8 <;> decide

/-- C10: for every direction value of either capability and every step
count `n`, `turn(Back, n)` ignores `n`: it equals `turn(Back, 1)`, which is
the half-cycle opposite (a right turn by half the arity). -/
theorem C10_turn_back_ignores_steps (d4 : Direction4) (d8 : Direction8) (n : Nat) :
    d4.turn Relative.Back n = d4.turn Relative.Back 1 ∧
    d4.turn Relative.Back n = d4.turn Relative.Right 2 ∧
    d8.turn Relative.Back n = d8.turn Relative.Back 1 ∧
    d8.turn Relative.Back n = d8.turn Relative.Right 4 := by
  refine ⟨rfl, ?_, rfl, ?_⟩
  · cases d4 <;> rfl
  · cases d8 <;> rfl

/-! ## Grid bounds lemmas -/

theorem Grid.in_bounds_iff {T : Type} (g : Grid T) (c : Coord) :
    g.in_bounds c = true ↔
      0 ≤ c.row ∧ 0 ≤ c.col ∧ c.row.toNat < g.height ∧ c.col.toNat < g.width := by
  unfold Grid.in_bounds
  simp [Bool.and_eq_true, decide_eq_true_eq, and_assoc, ge_iff_le]

theorem Coord.as_unsigned_some {c : Coord} {r cl : Nat}
    (h : c.as_unsigned = some (r, cl)) :
    0 ≤ c.row ∧ 0 ≤ c.col ∧ r = c.row.toNat ∧ cl = c.col.toNat := by
  unfold Coord.as_unsigned at h
  split_ifs at h with h1
  · simp only [Option.some.injEq, Prod.mk.injEq] at h
    exact ⟨h1.1, h1.2, h.1.symm, h.2.symm⟩

theorem Grid.index_some {T : Type} {g : Grid T} {r cl idx : Nat}
    (h : g.index r cl = some idx) :
    r < g.height ∧ cl < g.width ∧ idx = r * g.width + cl := by
  unfold Grid.index at h
  split_ifs at h with h1
  · simp only [Option.some.injEq] at h
    exact ⟨h1.1, h1.2, h.symm⟩

theorem Grid.in_bounds_of_resolved {T : Type} {g : Grid T} {c : Coord} {r cl idx : Nat}
    (hau : c.as_unsigned = some (r, cl)) (hidx : g.index r cl = some idx) :
    g.in_bounds c = true := by
  obtain ⟨h1, h2, h3, h4⟩ := Coord.as_unsigned_some hau
  obtain ⟨h5, h6, _⟩ := Grid.index_some hidx
  rw [Grid.in_bounds_iff]
  exact ⟨h1, h2, h3 ▸ h5, h4 ▸ h6⟩

theorem Grid.take_out_of_range {T : Type} (g : Grid T) (c : Coord)
    (h : g.in_bounds c = false) : g.take c = (g, none) := by
  rcases hau : c.as_unsigned with _ | ⟨r, cl⟩
  · simp [Grid.take, hau]
  · rcases hidx : g.index r cl with _ | idx
    · simp [Grid.take, hau, hidx]
    · rw [Grid.in_bounds_of_resolved hau hidx] at h
      exact absurd h (by simp)

theorem Grid.set_out_of_range {T : Type} (g : Grid T) (c : Coord) (v : T)
    (h : g.in_bounds c = false) : g.set c v = (g, none) := by
  rcases hau : c.as_unsigned with _ | ⟨r, cl⟩
  · simp [Grid.set, hau]
  · rcases hidx : g.index r cl with _ | idx
    · simp [Grid.set, hau, hidx]
    · rw [Grid.in_bounds_of_resolved hau hidx] at h
      exact absurd h (by simp)

theorem Grid.swap_out_of_range {T : Type} (g : Grid T) (a b : Coord)
    (h : g.in_bounds a = false ∨ g.in_bounds b = false) :
    g.swap a b = (g, false) := by
  rcases hau : a.as_unsigned with _ | ⟨ra, ca⟩
  · simp [Grid.swap, hau]
  · rcases hbu : b.as_unsigned with _ | ⟨rb, cb⟩
    · simp [Grid.swap, hau, hbu]
    · rcases hia : g.index ra ca with _ | ia
      · simp [Grid.swap, hau, hbu, hia]
      · rcases hib : g.index rb cb with _ | ib
        · simp [Grid.swap, hau, hbu, hia, hib]
        · rcases h with h | h
          · rw [Grid.in_bounds_of_resolved hau hia] at h
            exact absurd h (by simp)
          · rw [Grid.in_bounds_of_resolved hbu hib] at h
            exact absurd h (by simp)

theorem Grid.get_some_resolves {T : Type} {g : Grid T} {c : Coord} {v : T}
    (h : g.get c = some v) :
    ∃ r cl idx, c.as_unsigned = some (r, cl) ∧ g.index r cl = some idx ∧
      g.cells.getD idx none = some v := by
  rcases hau : c.as_unsigned with _ | ⟨r, cl⟩
  · simp [Grid.get, hau] at h
  · rcases hidx : g.index r cl with _ | idx
    · simp [Grid.get, hau, hidx] at h
    · simp only [Grid.get, hau, hidx] at h
      exact ⟨r, cl, idx, rfl, hidx, h⟩

/-- C2 counterexample: the claim that `move(from, to)` with an in-range
non-empty `from` and an out-of-range `to` leaves the value at `from` in
place is false on the code: for the 1-by-1 grid holding 7, moving from
(0,0) to out-of-range (5,5) returns `none` and empties the (0,0) cell (the
value is dropped). -/
theorem C2_counterexample :
    gOne.get { row := 0, col := 0 } = some 7 ∧
    gOne.in_bounds { row := 0, col := 0 } = true ∧
    gOne.in_bounds { row := 5, col := 5 } = false ∧
    (gOne.move_to { row := 0, col := 0 } { row := 5, col := 5 }).2 = none ∧
    (gOne.move_to { row := 0, col := 0 } { row := 5, col := 5 }).1.get
      { row := 0, col := 0 } = none := by
  decide

/-- C2 amended: `clear`/`take` with an out-of-range coordinate and `swap`
with either coordinate out of range are no-ops returning a failure
indicator (the whole grid is unchanged), and `move` with an out-of-range
`from` is likewise a no-op returning `none`; but `move` with an in-range
non-empty `from` and an out-of-range `to` returns `none` after removing
the value from `from` and discarding it — the resulting grid is exactly
the grid with `from` taken, whose `from` cell reads empty. -/
theorem C2_out_of_range_ops {T : Type} (g : Grid T) (a b : Coord) :
    (g.in_bounds a = false → g.take a = (g, none) ∧ g.clear a = (g, none)) ∧
    (g.in_bounds a = false ∨ g.in_bounds b = false → g.swap a b = (g, false)) ∧
    (g.in_bounds a = false → g.move_to a b = (g, none)) ∧
    (∀ v : T, g.in_bounds a = true → g.get a = some v → g.in_bounds b = false →
      g.move_to a b = ((g.take a).1, none) ∧ (g.take a).1.get a = none) := by
  refine ⟨fun h => ⟨Grid.take_out_of_range g a h, Grid.take_out_of_range g a h⟩,
    Grid.swap_out_of_range g a b, fun h => ?_, fun v _ hget hb => ?_⟩
  · simp [Grid.move_to, Grid.take_out_of_range g a h]
  · obtain ⟨r, cl, idx, hau, hidx, hcell⟩ := Grid.get_some_resolves hget
    have hcell' : g.cells[idx]?.getD none = some v := by
      rw [← List.getD_eq_getElem?_getD]; exact hcell
    have htake : g.take a = ({ g with cells := g.cells.set idx none }, some v) := by
      simp [Grid.take, hau, hidx, hcell']
    have hb2 : Grid.in_bounds { g with cells := g.cells.set idx none } b = false := hb
    constructor
    · simp only [Grid.move_to, htake]
      rw [Grid.set_out_of_range _ b v hb2]
    · rw [htake]
      have hidx2 : Grid.index { g with cells := g.cells.set idx none } r cl = some idx := hidx
      have hlt : idx < g.cells.length := by
        by_contra hge
        rw [List.getD_eq_default _ _ (by omega)] at hcell
        exact absurd hcell (by simp)
      simp [Grid.get, hau, hidx2, List.getD_eq_getElem?_getD, List.getElem?_set_self, hlt]

theorem C2_witness :
    gOne.take { row := -1, col := 0 } = (gOne, none) ∧
    gOne.swap { row := -1, col := 0 } { row := 0, col := 0 } = (gOne, false) ∧
    gOne.move_to { row := -1, col := 0 } { row := 0, col := 0 } = (gOne, none) ∧
    gOne.move_to { row := 0, col := 0 } { row := 5, col := 5 } =
      ((gOne.take { row := 0, col := 0 }).1, none) :=
  ⟨((C2_out_of_range_ops gOne { row := -1, col := 0 } { row := 0, col := 0 }).1 (by decide)).1,
   (C2_out_of_range_ops gOne { row := -1, col := 0 } { row := 0, col := 0 }).2.1
     (Or.inl (by decide)),
   (C2_out_of_range_ops gOne { row := -1, col := 0 } { row := 0, col := 0 }).2.2.1 (by decide),
   ((C2_out_of_range_ops gOne { row := 0, col := 0 } { row := 5, col := 5 }).2.2.2 7
     (by decide) (by decide) (by decide)).1⟩

/-! ## Tick-level lemmas -/

/-- C3 counterexample: on the 1-by-1 entrance grid, the seeded beam is
active and its next coordinate is out of bounds; the tick sets its
`out_of_bounds` flag and spawns nothing, but the tick's processed count is
0 — the beam does NOT contribute to the processed count used by the
fixed-point termination test, contrary to the claim. -/
theorem C3_counterexample :
    (m1x1.beams.getD 0 dfltBeam).is_active = true ∧
    m1x1.grid.in_bounds ((m1x1.beams.getD 0 dfltBeam).current.step Direction4.South 1)
      = false ∧
    m1x1.beams.length = 1 ∧
    m1x1.tick.2 = 0 ∧
    (m1x1.tick.1.beams.getD 0 dfltBeam).out_of_bounds = true ∧
    m1x1.tick.1.beams.length = 1 := by
  decide

/-- C3 amended: during a tick, an active beam whose next coordinate (one
step south) is out of bounds gets its `out_of_bounds` flag set and spawns
no children, and it is NOT counted as processed for that tick: the tick
state (including the processed count and the new-beam list) is left
entirely unchanged. This zero contribution is what lets the loop's
fixed-point test fire. -/
theorem C3_out_of_bounds_step (st : TickState) (b : Beam)
    (hb : b.is_active = true)
    (hoob : st.grid.in_bounds (b.current.step Direction4.South 1) = false) :
    stepBeam st b = ({ b with out_of_bounds := true }, st) := by
  simp [stepBeam, hb, hoob]

theorem C3_witness :
    stepBeam { grid := m1x1.grid, new_beams := [], processed := 0 } dfltBeam =
      ({ dfltBeam with out_of_bounds := true },
       { grid := m1x1.grid, new_beams := [], processed := 0 }) :=
  C3_out_of_bounds_step _ _ (by decide) (by decide)

set_option maxRecDepth 100000 in
/-- C1: on the reference fixture grid, the simulation terminates within the
given fuel, and querying the run manifold yields exactly 21 inactive beams
and a quantum path count of exactly 40 from the entrance coordinate. -/
theorem C1_fixture_results : simResults TEST_INPUT 100 = some (21, 40) := by
  decide

theorem Grid.set_preserves {T : Type} (g : Grid T) (c : Coord) (v : T) :
    (g.set c v).1.width = g.width ∧ (g.set c v).1.height = g.height ∧
    (g.set c v).1.cells.length = g.cells.length := by
  rcases hau : c.as_unsigned with _ | ⟨r, cl⟩
  · simp [Grid.set, hau]
  · rcases hidx : g.index r cl with _ | idx
    · simp [Grid.set, hau, hidx]
    · simp [Grid.set, hau, hidx]

theorem Grid.in_bounds_eq_of_dims {T : Type} {g g' : Grid T}
    (hw : g'.width = g.width) (hh : g'.height = g.height) (c : Coord) :
    g'.in_bounds c = g.in_bounds c := by
  unfold Grid.in_bounds
  rw [hw, hh]

/-- Structural facts about one beam-processing step: grid dimensions are
preserved, the new-beam accumulator only grows by freshly created beams
whose spawn coordinate was checked in bounds, and an in-bounds beam stays
in bounds. -/
theorem stepBeam_basic (st : TickState) (b : Beam) :
    (stepBeam st b).2.grid.width = st.grid.width ∧
    (stepBeam st b).2.grid.height = st.grid.height ∧
    (∃ tail, (stepBeam st b).2.new_beams = st.new_beams ++ tail ∧
      ∀ nb ∈ tail, ∃ c, nb = Beam.new c ∧ st.grid.in_bounds c = true) ∧
    (st.grid.in_bounds b.current = true →
      st.grid.in_bounds (stepBeam st b).1.current = true) := by
  unfold stepBeam
  by_cases h1 : ¬ b.is_active = true
  · rw [if_pos h1]
    exact ⟨rfl, rfl, ⟨[], (List.append_nil _).symm, by simp⟩, fun h => h⟩
  rw [if_neg h1]
  by_cases h2 : ¬ st.grid.in_bounds (b.current.step Direction4.South 1) = true
  · rw [if_pos h2]
    exact ⟨rfl, rfl, ⟨[], (List.append_nil _).symm, by simp⟩, fun h => h⟩
  rw [if_neg h2]
  rw [not_not] at h2
  rcases hget : st.grid.get (b.current.step Direction4.South 1) with _ | comp
  · simp only [hget]
    refine ⟨?_, ?_, ⟨[], ?_, ?_⟩, ?_⟩ <;> simp
  cases comp with
  | Splitter =>
    simp only [hget]
    have hw := (Grid.set_preserves st.grid
      ((b.current.step Direction4.South 1).step Direction4.West 1) Component.Beam).1
    have hh := (Grid.set_preserves st.grid
      ((b.current.step Direction4.South 1).step Direction4.West 1) Component.Beam).2.1
    by_cases h3 : st.grid.in_bounds
        ((b.current.step Direction4.South 1).step Direction4.West 1) = true
    · rw [if_pos h3]
      by_cases h4 : Grid.in_bounds
          (st.grid.set ((b.current.step Direction4.South 1).step Direction4.West 1)
            Component.Beam).1
          ((b.current.step Direction4.South 1).step Direction4.East 1) = true
      · rw [if_pos h4]
        refine ⟨?_, ?_,
          ⟨[Beam.new ((b.current.step Direction4.South 1).step Direction4.West 1),
            Beam.new ((b.current.step Direction4.South 1).step Direction4.East 1)],
            ?_, ?_⟩, ?_⟩
        · simp [Grid.set_preserves, hw]
        · simp [Grid.set_preserves, hh]
        · simp
        · intro nb hnb
          simp only [List.mem_cons, List.not_mem_nil, or_false] at hnb
          rcases hnb with hnb | hnb
          · exact ⟨_, hnb, h3⟩
          · refine ⟨_, hnb, ?_⟩
            rw [Grid.in_bounds_eq_of_dims hw hh] at h4
            exact h4
        · intro _
          simp [h2]
      · rw [if_neg h4]
        refine ⟨hw, hh,
          ⟨[Beam.new ((b.current.step Direction4.South 1).step Direction4.West 1)], ?_, ?_⟩, ?_⟩
        · simp
        · intro nb hnb
          simp only [List.mem_singleton] at hnb
          exact ⟨_, hnb, h3⟩
        · intro _
          simp [h2]
    · rw [if_neg h3]
      by_cases h4 : st.grid.in_bounds
          ((b.current.step Direction4.South 1).step Direction4.East 1) = true
      · rw [if_pos h4]
        refine ⟨?_, ?_,
          ⟨[Beam.new ((b.current.step Direction4.South 1).step Direction4.East 1)], ?_, ?_⟩, ?_⟩
        · exact (Grid.set_preserves st.grid _ Component.Beam).1
        · exact (Grid.set_preserves st.grid _ Component.Beam).2.1
        · simp
        · intro nb hnb
          simp only [List.mem_singleton] at hnb
          exact ⟨_, hnb, h4⟩
        · intro _
          simp [h2]
      · rw [if_neg h4]
        refine ⟨rfl, rfl, ⟨[], ?_, ?_⟩, ?_⟩
        · simp
        · simp
        · intro _
          simp [h2]
  | Empty =>
    simp only [hget]
    refine ⟨(Grid.set_preserves st.grid _ Component.Beam).1,
      (Grid.set_preserves st.grid _ Component.Beam).2.1, ⟨[], ?_, ?_⟩, ?_⟩
    · simp
    · simp
    · intro _
      simp [h2]
  | Entrance =>
    simp only [hget]
    refine ⟨(Grid.set_preserves st.grid _ Component.Beam).1,
      (Grid.set_preserves st.grid _ Component.Beam).2.1, ⟨[], ?_, ?_⟩, ?_⟩
    · simp
    · simp
    · intro _
      simp [h2]
  | Beam =>
    simp only [hget]
    refine ⟨(Grid.set_preserves st.grid _ Component.Beam).1,
      (Grid.set_preserves st.grid _ Component.Beam).2.1, ⟨[], ?_, ?_⟩, ?_⟩
    · simp
    · simp
    · intro _
      simp [h2]

/-- The function `tickBeams` preserves the length of the processed beam list. -/
theorem tickBeams_length (bs : List Beam) : ∀ st : TickState,
    (tickBeams st bs).1.length = bs.length := by
  induction bs with
  | nil => intro st; rfl
  | cons b rest ih =>
    intro st
    have h := ih (stepBeam st b).2
    simp only [tickBeams]
    rcases hs : stepBeam st b with ⟨b1, st1⟩
    rcases ht : tickBeams st1 rest with ⟨rest1, st2⟩
    rw [hs] at h
    rw [ht] at h
    simpa using h

/-- Folding `insert_beam` only appends (a subset of) the candidates to the
beam list and never touches the grid or cache. -/
theorem foldl_insert_beams (cands : List Beam) : ∀ m : Manifold,
    (cands.foldl Manifold.insert_beam m).grid = m.grid ∧
    (cands.foldl Manifold.insert_beam m).manifold_cache = m.manifold_cache ∧
    ∃ ex : List Beam, (cands.foldl Manifold.insert_beam m).beams = m.beams ++ ex ∧
      ex.Sublist cands := by
  induction cands with
  | nil => exact fun m => ⟨rfl, rfl, [], by simp, List.Sublist.refl []⟩
  | cons c rest ih =>
    intro m
    simp only [List.foldl_cons]
    by_cases hdup : m.beams.any (fun b => decide (b.current = c.current)) = true
    · have hins : m.insert_beam c = m := by
        unfold Manifold.insert_beam
        rw [if_pos hdup]
      rw [hins]
      obtain ⟨hg, hc, ex, hex, hsub⟩ := ih m
      exact ⟨hg, hc, ex, hex, hsub.cons c⟩
    · have hins : m.insert_beam c = { m with beams := m.beams ++ [c] } := by
        unfold Manifold.insert_beam
        rw [if_neg hdup]
      rw [hins]
      obtain ⟨hg, hc, ex, hex, hsub⟩ := ih { m with beams := m.beams ++ [c] }
      refine ⟨hg, hc, c :: ex, ?_, hsub.cons₂ c⟩
      rw [hex]
      simp

/-- C4 counterexample: a reachable tick in which a beam is NOT evaluated
against the grid state as it stood at the start of the tick. In `cexM2`
(the state at the start of the third tick of the `cexLines` simulation),
beam 4 at (2,4) faces a splitter at (3,4) in the start-of-tick grid, but an
earlier beam of the same tick overwrites (3,4) with a beam-occupancy mark,
so the tick advances beam 4 through it instead of terminating it: the
beam's processed result differs from its evaluation against the
start-of-tick grid. -/
theorem C4_counterexample :
    4 < cexM2.beams.length ∧
    cexM2.tick.1.beams.getD 4 dfltBeam ≠
      (stepBeam { grid := cexM2.grid, new_beams := [], processed := 0 }
        (cexM2.beams.getD 4 dfltBeam)).1 := by
  decide

/-- C4 amended: each tick defers newly spawned beams — the first
`beams.length` entries of the post-tick population are exactly the
processed versions of the pre-tick beams (in order), and every beam
appended during the tick is a freshly created, un-advanced, active beam —
but grid occupancy marks written during the tick are immediately visible
to beams processed later in the same tick (see the counterexample). -/
theorem C4_tick_defers_new_beams (m : Manifold) :
    m.tick.1.beams.take m.beams.length =
      (tickBeams { grid := m.grid, new_beams := [], processed := 0 } m.beams).1 ∧
    ∀ b ∈ m.tick.1.beams.drop m.beams.length,
      b.current = b.start ∧ b.is_active = true ∧ b.split = false ∧
        b.out_of_bounds = false := by
  have hlen := tickBeams_length m.beams { grid := m.grid, new_beams := [], processed := 0 }
  unfold Manifold.tick
  rcases ht : tickBeams { grid := m.grid, new_beams := [], processed := 0 } m.beams
    with ⟨beams1, st⟩
  obtain ⟨_, _, ex, hex, hsub⟩ := foldl_insert_beams st.new_beams
    { m with grid := st.grid, beams := beams1 }
  rw [ht] at hlen
  simp only at hlen hex ⊢
  rw [hex]
  constructor
  · rw [← hlen, List.take_left]
  · intro b hb
    rw [← hlen, List.drop_left] at hb
    have hfresh : ∀ nb ∈ st.new_beams, ∃ c, nb = Beam.new c := by
      have haux : ∀ (bs : List Beam) (st0 : TickState),
          (∀ nb ∈ st0.new_beams, ∃ c, nb = Beam.new c) →
          ∀ nb ∈ (tickBeams st0 bs).2.new_beams, ∃ c, nb = Beam.new c := by
        intro bs
        induction bs with
        | nil => intro st0 h0; exact h0
        | cons x rest ihx =>
          intro st0 h0
          simp only [tickBeams]
          rcases hs : stepBeam st0 x with ⟨b1, st1⟩
          rcases ht2 : tickBeams st1 rest with ⟨rest1, st2⟩
          have hstep := (stepBeam_basic st0 x).2.2.1
          rw [hs] at hstep
          obtain ⟨tail, htail, htailmem⟩ := hstep
          have h1 : ∀ nb ∈ st1.new_beams, ∃ c, nb = Beam.new c := by
            intro nb hnb
            rw [htail] at hnb
            rcases List.mem_append.mp hnb with hnb | hnb
            · exact h0 nb hnb
            · obtain ⟨c, hc, _⟩ := htailmem nb hnb
              exact ⟨c, hc⟩
          have := ihx st1 h1
          rw [ht2] at this
          exact this
      have := haux m.beams { grid := m.grid, new_beams := [], processed := 0 } (by simp)
      rw [ht] at this
      exact this
    obtain ⟨c, hc⟩ := hfresh b (hsub.subset hb)
    subst hc
    exact ⟨rfl, rfl, rfl, rfl⟩

theorem C4_witness :
    cexM2.tick.1.beams.take cexM2.beams.length =
      (tickBeams { grid := cexM2.grid, new_beams := [], processed := 0 } cexM2.beams).1 ∧
    ((cexM2.tick.1.beams.drop cexM2.beams.length).getD 0 dfltBeam).current =
      ((cexM2.tick.1.beams.drop cexM2.beams.length).getD 0 dfltBeam).start :=
  ⟨(C4_tick_defers_new_beams cexM2).1,
   ((C4_tick_defers_new_beams cexM2).2 _ (by decide)).1⟩

/-! ## Beam deduplication -/

theorem occCount_append (bs : List Beam) (b : Beam) (c : Coord) :
    occCount (bs ++ [b]) c = occCount bs c + (if b.current = c then 1 else 0) := by
  unfold occCount
  rw [List.filter_append, List.length_append]
  by_cases h : b.current = c
  · simp [List.filter, h]
  · simp [List.filter, h]

theorem occCount_pos_iff (bs : List Beam) (c : Coord) :
    0 < occCount bs c ↔ ∃ b ∈ bs, b.current = c := by
  unfold occCount
  rw [List.length_pos_iff_exists_mem]
  simp [List.mem_filter]

theorem any_current_eq (bs : List Beam) (c : Coord) :
    bs.any (fun b => decide (b.current = c)) = true ↔ ∃ b ∈ bs, b.current = c := by
  simp [List.any_eq_true]

/-- C6: `insert_beam` never inserts a candidate while an already-tracked
beam's current coordinate equals the candidate's (first conjunct), and
inserting any batch of candidates leaves, at each coordinate `c`, either
the pre-existing beam count (when some tracked beam already occupies `c`)
or exactly one beam when at least one candidate targets `c` — never two. -/
theorem C6_dedup_by_position :
    (∀ (m : Manifold) (b : Beam), (∃ b2 ∈ m.beams, b2.current = b.current) →
      m.insert_beam b = m) ∧
    (∀ (cands : List Beam) (m : Manifold) (c : Coord),
      occCount (cands.foldl Manifold.insert_beam m).beams c =
        if 0 < occCount m.beams c then occCount m.beams c
        else if cands.any (fun b => decide (b.current = c)) then 1 else 0) := by
  constructor
  · intro m b hb
    unfold Manifold.insert_beam
    rw [if_pos ((any_current_eq m.beams b.current).mpr hb)]
  · intro cands
    induction cands with
    | nil =>
      intro m c
      simp only [List.foldl_nil, List.any_nil]
      by_cases h : 0 < occCount m.beams c
      · rw [if_pos h]
      · rw [if_neg h, if_neg (by simp)]
        omega
    | cons cand rest ih =>
      intro m c
      simp only [List.foldl_cons, List.any_cons]
      by_cases hdup : m.beams.any (fun b => decide (b.current = cand.current)) = true
      · have hins : m.insert_beam cand = m := by
          unfold Manifold.insert_beam
          rw [if_pos hdup]
        rw [hins, ih m c]
        by_cases hc : cand.current = c
        · have hpos : 0 < occCount m.beams c := by
            rw [occCount_pos_iff]
            obtain ⟨b2, hb2, hb2c⟩ := (any_current_eq _ _).mp hdup
            exact ⟨b2, hb2, by rw [hb2c, hc]⟩
          simp [hpos]
        · simp [hc]
      · have hins : m.insert_beam cand = { m with beams := m.beams ++ [cand] } := by
          unfold Manifold.insert_beam
          rw [if_neg hdup]
        rw [hins, ih { m with beams := m.beams ++ [cand] } c]
        have hb2 : ({ m with beams := m.beams ++ [cand] } : Manifold).beams
            = m.beams ++ [cand] := rfl
        rw [hb2]
        by_cases hc : cand.current = c
        · have hzero : occCount m.beams c = 0 := by
            by_contra hnz
            have hpos := Nat.pos_of_ne_zero hnz
            rw [occCount_pos_iff] at hpos
            obtain ⟨b2, hmem2, hb2c⟩ := hpos
            exact hdup ((any_current_eq _ _).mpr ⟨b2, hmem2, by rw [hb2c, hc]⟩)
          have hocc : occCount (m.beams ++ [cand]) c = 1 := by
            rw [occCount_append, hzero, if_pos hc]
          rw [hocc, hzero]
          simp [hc]
        · have hocc : occCount (m.beams ++ [cand]) c = occCount m.beams c := by
            rw [occCount_append, if_neg hc]
            omega
          rw [hocc]
          simp [hc]

theorem C6_witness :
    mW.insert_beam (Beam.new { row := 0, col := 0 }) = mW ∧
    occCount (([Beam.new { row := 1, col := 0 }, Beam.new { row := 1, col := 0 }].foldl
      Manifold.insert_beam mW).beams) { row := 1, col := 0 } = 1 :=
  ⟨C6_dedup_by_position.1 mW _ ⟨dfltBeam, by decide, by decide⟩,
   (C6_dedup_by_position.2
      [Beam.new { row := 1, col := 0 }, Beam.new { row := 1, col := 0 }] mW
      { row := 1, col := 0 }).trans (by decide)⟩

/-! ## Path counter idempotence -/

theorem cacheLookup_insert_self (cache : List (Coord × Nat)) (pos : Coord) (v : Nat) :
    cacheLookup (cacheInsert cache pos v) pos = some v := by
  unfold cacheInsert
  by_cases h : cache.any (fun p => decide (p.1 = pos)) = true
  · rw [if_pos h]
    unfold cacheLookup
    induction cache with
    | nil => simp at h
    | cons hd tl ih =>
      by_cases hhd : hd.1 = pos
      · simp [List.find?, hhd]
      · simp only [List.any_cons, Bool.or_eq_true, decide_eq_true_eq] at h
        rcases h with h | h
        · exact absurd h hhd
        · simp only [List.map_cons, if_neg hhd, List.find?]
          rw [decide_eq_false hhd]
          exact ih h
  · rw [if_neg h]
    unfold cacheLookup
    induction cache with
    | nil => simp
    | cons hd tl ih =>
      simp only [List.any_cons, Bool.or_eq_true, decide_eq_true_eq, not_or] at h
      simp only [List.cons_append, List.find?]
      rw [decide_eq_false h.1]
      exact ih (by simpa using h.2)

/-- C7: the path counter is idempotent: if a call from `pos` (with any fuel
and starting cache) returns a result, then calling it again from the same
`pos` on the resulting cache returns the very same value and the very same
cache — in particular the cache's entry count does not grow on the second
call — and the second call needs only one unit of fuel. -/
theorem countQM_cache_hit (g : Grid Component) (f2 : Nat) (C : List (Coord × Nat))
    (pos : Coord) (V : Nat) :
    countQM g (f2 + 1) (cacheInsert C pos V) pos = some (cacheInsert C pos V, V) := by
  rw [countQM]
  simp [cacheLookup_insert_self]

theorem C7_count_idempotent (g : Grid Component) (fuel fuel2 : Nat)
    (cache : List (Coord × Nat)) (pos : Coord) (res : List (Coord × Nat) × Nat)
    (h : countQM g fuel cache pos = some res) :
    countQM g (fuel2 + 1) res.1 pos = some res := by
  cases fuel with
  | zero => simp [countQM] at h
  | succ f =>
    rcases hl : cacheLookup cache pos with _ | count
    · rw [countQM] at h
      simp only [hl] at h
      by_cases hib : ¬ (g.in_bounds (pos.step Direction4.South 1)) = true
      · rw [if_pos hib] at h
        simp only [Option.some.injEq] at h
        subst h
        rw [countQM]
        simp only [hl]
        rw [if_pos hib]
      · rw [if_neg hib] at h
        have hres : ∃ C V, res = (cacheInsert C pos V, V) := by
          rcases hE : (match g.get (pos.step Direction4.South 1) with
            | some Component.Splitter =>
              match countQM g f cache
                  ((pos.step Direction4.South 1).step Direction4.West 1) with
              | none => none
              | some (cacheL, cl) =>
                match countQM g f cacheL
                    ((pos.step Direction4.South 1).step Direction4.East 1) with
                | none => none
                | some (cacheR, cr) => some (cacheR, (cl + cr) % 2 ^ 64)
            | _ => countQM g f cache (pos.step Direction4.South 1))
            with _ | pair
          · rw [hE] at h
            simp at h
          · rw [hE] at h
            rcases pair with ⟨c1, cnt⟩
            simp only [Option.some.injEq] at h
            exact ⟨c1, cnt, h.symm⟩
        obtain ⟨C, V, hCV⟩ := hres
        subst hCV
        exact countQM_cache_hit g fuel2 C pos V
    · rw [countQM] at h
      simp only [hl, Option.some.injEq] at h
      subst h
      rw [countQM]
      simp only [hl]

theorem C7_witness :
    countQM gridV (0 + 1) ([({ row := 0, col := 0 }, 1)], 1).1 { row := 0, col := 0 } =
      some ([({ row := 0, col := 0 }, 1)], 1) :=
  C7_count_idempotent gridV 3 0 [] { row := 0, col := 0 }
    ([({ row := 0, col := 0 }, 1)], 1) (by decide)

/-! ## Parse well-formedness -/

theorem parseLine_length : ∀ (l : List Char) (row : List Component),
    parseLine l = some row → row.length = l.length := by
  intro l
  induction l with
  | nil =>
    intro row h
    simp only [parseLine, Option.some.injEq] at h
    subst h
    rfl
  | cons c rest ih =>
    intro row h
    simp only [parseLine] at h
    rcases hc : parseComponent c with _ | comp
    · rw [hc] at h; simp at h
    · rw [hc] at h
      rcases hr : parseLine rest with _ | comps
      · rw [hr] at h; simp at h
      · rw [hr] at h
        simp only [Option.some.injEq] at h
        subst h
        simp [ih comps hr]

theorem parseLines_spec : ∀ (ls : List (List Char)) (data : List (List Component)),
    parseLines ls = some data →
    data.length = ls.length ∧
    (∀ row ∈ data, ∃ l ∈ ls, parseLine l = some row) ∧
    (data.headD []).length = (ls.headD []).length := by
  intro ls
  induction ls with
  | nil =>
    intro data h
    simp only [parseLines, Option.some.injEq] at h
    subst h
    exact ⟨rfl, by simp, rfl⟩
  | cons l rest ih =>
    intro data h
    simp only [parseLines] at h
    rcases hl : parseLine l with _ | row
    · rw [hl] at h; simp at h
    · rw [hl] at h
      rcases hr : parseLines rest with _ | rows
      · rw [hr] at h; simp at h
      · rw [hr] at h
        simp only [Option.some.injEq] at h
        subst h
        obtain ⟨hlen, hmem, _⟩ := ih rows hr
        refine ⟨by simp [hlen], ?_, by simpa using parseLine_length l row hl⟩
        intro row2 hrow2
        rcases List.mem_cons.mp hrow2 with hrow2 | hrow2
        · exact ⟨l, List.mem_cons_self _ _, hrow2 ▸ hl⟩
        · obtain ⟨l2, hl2, hpl2⟩ := hmem row2 hrow2
          exact ⟨l2, List.mem_cons_of_mem _ hl2, hpl2⟩

theorem sum_const_lengths {α : Type} : ∀ (ls : List (List α)) (w : Nat),
    (∀ l ∈ ls, l.length = w) → (ls.map List.length).sum = ls.length * w := by
  intro ls
  induction ls with
  | nil => intro w _; simp
  | cons l rest ih =>
    intro w h
    simp only [List.map_cons, List.sum_cons, List.length_cons]
    rw [h l (List.mem_cons_self _ _), ih w (fun l2 hl2 => h l2 (List.mem_cons_of_mem _ hl2))]
    ring

/-- A successful parse of a rectangular input yields a manifold with no
beams, an empty cache, and a well-formed grid (dense, fully filled). -/
theorem from_input_wf (lines : List (List Char)) (m : Manifold)
    (hm : Manifold.from_input lines = some m)
    (hrect : ∀ l ∈ lines, l.length = (lines.headD []).length) :
    m.beams = [] ∧ m.manifold_cache = [] ∧ WFcells m.grid := by
  unfold Manifold.from_input at hm
  rcases hp : parseLines lines with _ | data
  · rw [hp] at hm; simp at hm
  · rw [hp] at hm
    simp only [Option.map_some', Option.some.injEq] at hm
    subst hm
    obtain ⟨hlen, hmem, hhead⟩ := parseLines_spec lines data hp
    refine ⟨rfl, rfl, ?_, ?_⟩
    · show ((data.map (fun row => row.map some)).flatten).length
        = (data.headD []).length * data.length
      rw [List.length_flatten, List.map_map]
      have hall : ∀ l2 ∈ data.map (fun row => row.map some),
          l2.length = (data.headD []).length := by
        intro l2 hl2
        obtain ⟨row, hrow, hrow2⟩ := List.mem_map.mp hl2
        subst hrow2
        rw [List.length_map]
        obtain ⟨l3, hl3, hpl3⟩ := hmem row hrow
        rw [parseLine_length l3 row hpl3, hrect l3 hl3, ← hhead]
      have : ((data.map (fun row => row.map some)).map List.length).sum
          = (data.map (fun row => row.map some)).length * (data.headD []).length :=
        sum_const_lengths _ _ hall
      rw [List.map_map] at this
      rw [this, List.length_map]
      ring
    · intro x hx
      have hx2 : x ∈ (data.map (fun row => row.map some)).flatten := hx
      rw [List.mem_flatten] at hx2
      obtain ⟨l2, hl2, hxl2⟩ := hx2
      obtain ⟨row, _, hrow2⟩ := List.mem_map.mp hl2
      subst hrow2
      obtain ⟨v, _, hv⟩ := List.mem_map.mp hxl2
      subst hv
      simp

/-- The entrance coordinate returned by `start` is in bounds whenever the
backing store is dense. -/
theorem Manifold.start_in_bounds (m : Manifold)
    (hrect : m.grid.cells.length = m.grid.width * m.grid.height)
    {s : Coord} (hs : m.start = some s) :
    m.grid.in_bounds s = true := by
  unfold Manifold.start at hs
  rcases hfind : m.grid.iter_filled.find? (fun p => decide (p.2 = Component.Entrance))
    with _ | p
  · rw [hfind] at hs; simp at hs
  · rw [hfind] at hs
    simp only [Option.map_some', Option.some.injEq] at hs
    have hp := List.mem_of_find?_eq_some hfind
    unfold Grid.iter_filled at hp
    rw [List.mem_filterMap] at hp
    obtain ⟨q, hq, hq2⟩ := hp
    unfold Grid.enumerate at hq
    rw [List.mem_map] at hq
    obtain ⟨i, hi, hq3⟩ := hq
    rw [List.mem_range] at hi
    rcases hcell : q.2 with _ | v
    · rw [hcell] at hq2; simp at hq2
    · rw [hcell] at hq2
      simp only [Option.map_some', Option.some.injEq] at hq2
      have hp1 : p.1 = q.1 := by rw [← hq2]
      have hwpos : 0 < m.grid.width := by
        rcases Nat.eq_zero_or_pos m.grid.width with hw | hw
        · rw [hw, Nat.zero_mul] at hrect
          omega
        · exact hw
      have hdiv : i / m.grid.width < m.grid.height := by
        rw [Nat.div_lt_iff_lt_mul hwpos]
        calc i < m.grid.cells.length := hi
          _ = m.grid.width * m.grid.height := hrect
          _ = m.grid.height * m.grid.width := Nat.mul_comm _ _
      have hmod : i % m.grid.width < m.grid.width := Nat.mod_lt _ hwpos
      have hq1 : q.1 = { row := (i / m.grid.width : Nat), col := (i % m.grid.width : Nat) } := by
        rw [← hq3]
      rw [Grid.in_bounds_iff, ← hs, hp1, hq1]
      simp only []
      refine ⟨by positivity, by positivity, ?_, ?_⟩
      · rw [Int.toNat_natCast]
        exact hdiv
      · rw [Int.toNat_natCast]
        exact hmod

/-- One tick keeps every beam of the population (and every accumulated
candidate) in bounds, and preserves the grid dimensions. -/
theorem tickBeams_in_bounds (bs : List Beam) : ∀ st : TickState,
    (∀ b ∈ bs, st.grid.in_bounds b.current = true) →
    (∀ nb ∈ st.new_beams, st.grid.in_bounds nb.current = true) →
    ((tickBeams st bs).2.grid.width = st.grid.width ∧
     (tickBeams st bs).2.grid.height = st.grid.height ∧
     (∀ b ∈ (tickBeams st bs).1, st.grid.in_bounds b.current = true) ∧
     (∀ nb ∈ (tickBeams st bs).2.new_beams, st.grid.in_bounds nb.current = true)) := by
  induction bs with
  | nil =>
    intro st h1 h2
    exact ⟨rfl, rfl, fun b hb => absurd hb (by simp [tickBeams]), h2⟩
  | cons b rest ih =>
    intro st h1 h2
    simp only [tickBeams]
    rcases hs : stepBeam st b with ⟨b1, st1⟩
    rcases ht : tickBeams st1 rest with ⟨rest1, st2⟩
    have hbasic := stepBeam_basic st b
    rw [hs] at hbasic
    obtain ⟨hw1, hh1, ⟨tail, htail, htmem⟩, hb1⟩ := hbasic
    have hib_eq : ∀ c, st1.grid.in_bounds c = st.grid.in_bounds c :=
      Grid.in_bounds_eq_of_dims hw1 hh1
    have ihrest : ∀ b2 ∈ rest, st1.grid.in_bounds b2.current = true := by
      intro b2 hb2
      rw [hib_eq]
      exact h1 b2 (List.mem_cons_of_mem _ hb2)
    have ihnew : ∀ nb ∈ st1.new_beams, st1.grid.in_bounds nb.current = true := by
      intro nb hnb
      rw [hib_eq]
      rw [htail] at hnb
      rcases List.mem_append.mp hnb with hnb | hnb
      · exact h2 nb hnb
      · obtain ⟨c, hc, hcin⟩ := htmem nb hnb
        subst hc
        exact hcin
    have hrec := ih st1 ihrest ihnew
    rw [ht] at hrec
    obtain ⟨hw2, hh2, hrest, hnew⟩ := hrec
    refine ⟨hw2.trans hw1, hh2.trans hh1, ?_, ?_⟩
    · intro b2 hb2
      rcases List.mem_cons.mp hb2 with hb2 | hb2
      · subst hb2
        exact hb1 (h1 b (List.mem_cons_self _ _))
      · rw [← hib_eq]
        exact hrest b2 hb2
    · intro nb hnb
      rw [← hib_eq]
      exact hnew nb hnb

/-- The whole-tick invariant: grid dimensions are constant and every beam
of the post-tick population is in bounds. -/
theorem tick_preserves_in_bounds (m : Manifold)
    (hb : ∀ b ∈ m.beams, m.grid.in_bounds b.current = true) :
    m.tick.1.grid.width = m.grid.width ∧ m.tick.1.grid.height = m.grid.height ∧
    ∀ b ∈ m.tick.1.beams, m.tick.1.grid.in_bounds b.current = true := by
  unfold Manifold.tick
  rcases ht : tickBeams { grid := m.grid, new_beams := [], processed := 0 } m.beams
    with ⟨beams1, st⟩
  have hrec := tickBeams_in_bounds m.beams
    { grid := m.grid, new_beams := [], processed := 0 } hb (by simp)
  rw [ht] at hrec
  obtain ⟨hw, hh, hbeams, hnew⟩ := hrec
  obtain ⟨hg, _, ex, hex, hsub⟩ := foldl_insert_beams st.new_beams
    { m with grid := st.grid, beams := beams1 }
  simp only at hw hh hbeams hnew ⊢
  have hib_eq : ∀ c, (st.new_beams.foldl Manifold.insert_beam
      { m with grid := st.grid, beams := beams1 }).grid.in_bounds c = m.grid.in_bounds c := by
    intro c
    rw [hg]
    exact Grid.in_bounds_eq_of_dims hw hh c
  refine ⟨by rw [hg]; exact hw, by rw [hg]; exact hh, ?_⟩
  intro b hbm
  rw [hex] at hbm
  rw [hib_eq]
  rcases List.mem_append.mp hbm with hbm | hbm
  · exact hbeams b hbm
  · exact hnew b (hsub.subset hbm)

/-- C9: for a well-formed (parsed, rectangular) input, at every point of
the simulation — after seeding and after every tick — every beam that is
still active has an in-bounds current coordinate (in fact every beam
does). -/
theorem C9_active_beams_in_bounds (lines : List (List Char)) (m m0 : Manifold)
    (hm : Manifold.from_input lines = some m)
    (hrect : ∀ l ∈ lines, l.length = (lines.headD []).length)
    (hm0 : m.simInit = some m0) (n : Nat) :
    ∀ b ∈ (m0.afterTicks n).beams, b.is_active = true →
      (m0.afterTicks n).grid.in_bounds b.current = true := by
  obtain ⟨hbeams0, _, hwf⟩ := from_input_wf lines m hm hrect
  have hinv : ∀ k : Nat, ∀ b ∈ (m0.afterTicks k).beams,
      (m0.afterTicks k).grid.in_bounds b.current = true := by
    intro k
    induction k with
    | zero =>
      unfold Manifold.simInit at hm0
      rcases hst : m.start with _ | s
      · rw [hst] at hm0; simp at hm0
      · rw [hst] at hm0
        simp only [Option.map_some', Option.some.injEq] at hm0
        have hsin := Manifold.start_in_bounds m hwf.1 hst
        intro b hb
        rw [← hm0] at hb
        unfold Manifold.insert_beam at hb
        rw [hbeams0] at hb
        simp only [List.any_nil, List.nil_append] at hb
        rw [if_neg (by simp)] at hb
        have hb2 : b ∈ [Beam.new s] := hb
        simp only [List.mem_singleton] at hb2
        subst hb2
        show (m0.afterTicks 0).grid.in_bounds (Beam.new s).current = true
        rw [← hm0]
        show Grid.in_bounds (m.insert_beam (Beam.new s)).grid s = true
        unfold Manifold.insert_beam
        split_ifs <;> exact hsin
    | succ k ihk =>
      show ∀ b ∈ ((m0.afterTicks k).tick.1).beams,
        ((m0.afterTicks k).tick.1).grid.in_bounds b.current = true
      exact (tick_preserves_in_bounds (m0.afterTicks k) ihk).2.2
  intro b hb _
  exact hinv n b hb

theorem C9_witness :
    (((mS.simInit).getD emptyManifold).afterTicks 0).grid.in_bounds
      ((((mS.simInit).getD emptyManifold).afterTicks 0).beams.getD 0 dfltBeam).current
      = true :=
  C9_active_beams_in_bounds oneCellLines mS ((mS.simInit).getD emptyManifold)
    (by decide) (by decide) (by decide) 0 _ (by decide) (by decide)

/-! ## Termination of the tick loop -/

theorem Coord.step_south_row (c : Coord) : (c.step Direction4.South 1).row = c.row + 1 := by
  simp [Coord.step, Direction4.delta]

theorem Coord.step_west_row (c : Coord) :
    (c.step Direction4.West 1).row = c.row := by
  simp [Coord.step, Direction4.delta]

theorem Coord.step_east_row (c : Coord) :
    (c.step Direction4.East 1).row = c.row := by
  simp [Coord.step, Direction4.delta]

theorem Grid.get_some_of_in_bounds {g : Grid Component} {c : Coord}
    (hwf : WFcells g) (hib : g.in_bounds c = true) : ∃ v, g.get c = some v := by
  obtain ⟨h1, h2, h3, h4⟩ := (Grid.in_bounds_iff g c).mp hib
  have hau : c.as_unsigned = some (c.row.toNat, c.col.toNat) := by
    unfold Coord.as_unsigned
    rw [if_pos ⟨h1, h2⟩]
  have hidx : g.index c.row.toNat c.col.toNat =
      some (c.row.toNat * g.width + c.col.toNat) := by
    unfold Grid.index
    rw [if_pos ⟨h3, h4⟩]
  have hlt : c.row.toNat * g.width + c.col.toNat < g.cells.length := by
    rw [hwf.1]
    calc c.row.toNat * g.width + c.col.toNat
        < c.row.toNat * g.width + g.width := by omega
      _ = (c.row.toNat + 1) * g.width := by ring
      _ ≤ g.height * g.width := Nat.mul_le_mul_right _ (by omega)
      _ = g.width * g.height := Nat.mul_comm _ _
  have hgd : g.cells.getD (c.row.toNat * g.width + c.col.toNat) none =
      g.cells[c.row.toNat * g.width + c.col.toNat] := by
    rw [List.getD_eq_getElem?_getD, List.getElem?_eq_getElem hlt]
    rfl
  have hne := hwf.2 _ (List.getElem_mem hlt)
  rcases hv : g.cells[c.row.toNat * g.width + c.col.toNat] with _ | v
  · rw [hv] at hne
    exact absurd rfl hne
  · refine ⟨v, ?_⟩
    simp only [Grid.get, hau, hidx]
    rw [hgd, hv]

theorem Grid.set_WF {g : Grid Component} (c : Coord) (v : Component)
    (hwf : WFcells g) : WFcells (g.set c v).1 := by
  constructor
  · rw [(Grid.set_preserves g c v).1, (Grid.set_preserves g c v).2.1,
      (Grid.set_preserves g c v).2.2]
    exact hwf.1
  · rcases hau : c.as_unsigned with _ | ⟨r, cl⟩
    · intro x hx
      have hcells : ((g.set c v).1).cells = g.cells := by
        simp [Grid.set, hau]
      rw [hcells] at hx
      exact hwf.2 x hx
    · rcases hidx : g.index r cl with _ | idx
      · intro x hx
        have hcells : ((g.set c v).1).cells = g.cells := by
          simp [Grid.set, hau, hidx]
        rw [hcells] at hx
        exact hwf.2 x hx
      · intro x hx
        have hcells : ((g.set c v).1).cells = g.cells.set idx (some v) := by
          simp [Grid.set, hau, hidx]
        rw [hcells] at hx
        rcases List.mem_or_eq_of_mem_set hx with hx | hx
        · exact hwf.2 x hx
        · subst hx
          simp

theorem potSum_append (H : Nat) (l1 l2 : List Beam) :
    potSum H (l1 ++ l2) = potSum H l1 + potSum H l2 := by
  simp [potSum]

theorem sublist_sum_le (l1 l2 : List Nat) (h : l1.Sublist l2) : l1.sum ≤ l2.sum := by
  induction h with
  | slnil => simp
  | cons a h ih =>
    simp only [List.sum_cons]
    omega
  | cons₂ a h ih =>
    simp only [List.sum_cons]
    omega

/-- One beam-processing step strictly pays for its processed count: the
potential of the updated beam plus all accumulated candidates plus the
processed counter never increases (the processed increment is funded by a
strict drop in the beam's own potential). Requires a dense fully-filled
grid (as produced by a well-formed parse). -/
theorem stepBeam_pot (st : TickState) (b : Beam) (hwf : WFcells st.grid) :
    WFcells (stepBeam st b).2.grid ∧
    (stepBeam st b).2.grid.height = st.grid.height ∧
    (stepBeam st b).2.grid.width = st.grid.width ∧
    beamPot st.grid.height (stepBeam st b).1 +
      potSum st.grid.height (stepBeam st b).2.new_beams + (stepBeam st b).2.processed ≤
      beamPot st.grid.height b + potSum st.grid.height st.new_beams + st.processed := by
  unfold stepBeam
  by_cases h1 : ¬ b.is_active = true
  · rw [if_pos h1]
    exact ⟨hwf, rfl, rfl, le_refl _⟩
  rw [if_neg h1]
  rw [not_not] at h1
  by_cases h2 : ¬ st.grid.in_bounds (b.current.step Direction4.South 1) = true
  · rw [if_pos h2]
    refine ⟨hwf, rfl, rfl, le_of_eq ?_⟩
    have hsame : beamPot st.grid.height { b with out_of_bounds := true } =
        beamPot st.grid.height b := rfl
    rw [hsame]
  rw [if_neg h2]
  rw [not_not] at h2
  have hprops := (Grid.in_bounds_iff st.grid _).mp h2
  rw [Coord.step_south_row] at hprops
  have hend : b.end_ = none := by
    have h1b : b.end_.isNone = true := h1
    exact Option.isNone_iff_eq_none.mp h1b
  have hk : ((st.grid.height : Int) - b.current.row).toNat =
      ((st.grid.height : Int) - (b.current.row + 1)).toNat + 1 := by
    obtain ⟨ha, _, hc, _⟩ := hprops
    omega
  have hpb : beamPot st.grid.height b =
      3 ^ (((st.grid.height : Int) - (b.current.row + 1)).toNat + 1) := by
    simp [beamPot, hend, hk]
  have hone : 1 ≤ 3 ^ ((st.grid.height : Int) - (b.current.row + 1)).toNat :=
    Nat.one_le_pow _ _ (by norm_num)
  have hpow : (3 : Nat) ^ (((st.grid.height : Int) - (b.current.row + 1)).toNat + 1) =
      3 ^ ((st.grid.height : Int) - (b.current.row + 1)).toNat * 3 := pow_succ 3 _
  obtain ⟨comp, hget⟩ := Grid.get_some_of_in_bounds hwf h2
  cases comp with
  | Splitter =>
    simp only [hget]
    have hbeam1 : beamPot st.grid.height
        { b with current := b.current.step Direction4.South 1,
                 end_ := some (b.current.step Direction4.South 1), split := true } = 0 := by
      simp [beamPot]
    have hwpot : beamPot st.grid.height
        (Beam.new ((b.current.step Direction4.South 1).step Direction4.West 1)) =
        3 ^ ((st.grid.height : Int) - (b.current.row + 1)).toNat := by
      simp [beamPot, Beam.new, Coord.step_west_row, Coord.step_south_row]
    have hepot : beamPot st.grid.height
        (Beam.new ((b.current.step Direction4.South 1).step Direction4.East 1)) =
        3 ^ ((st.grid.height : Int) - (b.current.row + 1)).toNat := by
      simp [beamPot, Beam.new, Coord.step_east_row, Coord.step_south_row]
    by_cases h3 : st.grid.in_bounds
        ((b.current.step Direction4.South 1).step Direction4.West 1) = true
    · rw [if_pos h3]
      by_cases h4 : Grid.in_bounds
          (st.grid.set ((b.current.step Direction4.South 1).step Direction4.West 1)
            Component.Beam).1
          ((b.current.step Direction4.South 1).step Direction4.East 1) = true
      · rw [if_pos h4]
        refine ⟨Grid.set_WF _ _ (Grid.set_WF _ _ hwf), ?_, ?_, ?_⟩
        · rw [(Grid.set_preserves _ _ _).2.1, (Grid.set_preserves _ _ _).2.1]
        · rw [(Grid.set_preserves _ _ _).1, (Grid.set_preserves _ _ _).1]
        · rw [hbeam1, List.append_assoc, potSum_append, potSum_append, hpb, hpow]
          simp only [potSum, List.map_cons, List.map_nil, List.sum_cons, List.sum_nil,
            hwpot, hepot]
          omega
      · rw [if_neg h4]
        refine ⟨Grid.set_WF _ _ hwf, (Grid.set_preserves _ _ _).2.1,
          (Grid.set_preserves _ _ _).1, ?_⟩
        rw [hbeam1, potSum_append, hpb, hpow]
        simp only [potSum, List.map_cons, List.map_nil, List.sum_cons, List.sum_nil, hwpot]
        omega
    · rw [if_neg h3]
      by_cases h4 : st.grid.in_bounds
          ((b.current.step Direction4.South 1).step Direction4.East 1) = true
      · rw [if_pos h4]
        refine ⟨Grid.set_WF _ _ hwf, (Grid.set_preserves _ _ _).2.1,
          (Grid.set_preserves _ _ _).1, ?_⟩
        rw [hbeam1, potSum_append, hpb, hpow]
        simp only [potSum, List.map_cons, List.map_nil, List.sum_cons, List.sum_nil, hepot]
        omega
      · rw [if_neg h4]
        refine ⟨hwf, rfl, rfl, ?_⟩
        rw [hbeam1, hpb, hpow]
        omega
  | Empty =>
    simp only [hget]
    refine ⟨Grid.set_WF _ _ hwf, (Grid.set_preserves _ _ _).2.1,
      (Grid.set_preserves _ _ _).1, ?_⟩
    have hb2 : beamPot st.grid.height
        { b with current := b.current.step Direction4.South 1 } =
        3 ^ ((st.grid.height : Int) - (b.current.row + 1)).toNat := by
      simp [beamPot, hend, Coord.step_south_row]
    rw [hb2, hpb, hpow]
    omega
  | Entrance =>
    simp only [hget]
    refine ⟨Grid.set_WF _ _ hwf, (Grid.set_preserves _ _ _).2.1,
      (Grid.set_preserves _ _ _).1, ?_⟩
    have hb2 : beamPot st.grid.height
        { b with current := b.current.step Direction4.South 1 } =
        3 ^ ((st.grid.height : Int) - (b.current.row + 1)).toNat := by
      simp [beamPot, hend, Coord.step_south_row]
    rw [hb2, hpb, hpow]
    omega
  | Beam =>
    simp only [hget]
    refine ⟨Grid.set_WF _ _ hwf, (Grid.set_preserves _ _ _).2.1,
      (Grid.set_preserves _ _ _).1, ?_⟩
    have hb2 : beamPot st.grid.height
        { b with current := b.current.step Direction4.South 1 } =
        3 ^ ((st.grid.height : Int) - (b.current.row + 1)).toNat := by
      simp [beamPot, hend, Coord.step_south_row]
    rw [hb2, hpb, hpow]
    omega

/-- The per-tick potential inequality, folded over the whole beam list. -/
theorem tickBeams_pot (bs : List Beam) : ∀ st : TickState, WFcells st.grid →
    WFcells (tickBeams st bs).2.grid ∧
    (tickBeams st bs).2.grid.height = st.grid.height ∧
    (tickBeams st bs).2.grid.width = st.grid.width ∧
    potSum st.grid.height (tickBeams st bs).1 +
      potSum st.grid.height (tickBeams st bs).2.new_beams + (tickBeams st bs).2.processed ≤
      potSum st.grid.height bs + potSum st.grid.height st.new_beams + st.processed := by
  induction bs with
  | nil =>
    intro st hwf
    exact ⟨hwf, rfl, rfl, by simp [tickBeams, potSum]⟩
  | cons b rest ih =>
    intro st hwf
    simp only [tickBeams]
    rcases hs : stepBeam st b with ⟨b1, st1⟩
    rcases ht : tickBeams st1 rest with ⟨rest1, st2⟩
    have hstep := stepBeam_pot st b hwf
    rw [hs] at hstep
    obtain ⟨hwf1, hh1, hw1, hle1⟩ := hstep
    have hrec := ih st1 hwf1
    rw [ht] at hrec
    obtain ⟨hwf2, hh2, hw2, hle2⟩ := hrec
    rw [hh1] at hh2 hle2
    refine ⟨hwf2, hh2, by rw [hw2, hw1], ?_⟩
    simp only [potSum, List.map_cons, List.sum_cons] at hle1 hle2 ⊢
    omega

/-- The operation `insert_beam` never touches the grid. -/
theorem insert_beam_grid (m : Manifold) (b : Beam) :
    (m.insert_beam b).grid = m.grid := by
  unfold Manifold.insert_beam
  split_ifs <;> rfl

/-- One tick pays for its processed count out of the manifold's potential:
`muPot` decreases by at least the number of beams processed. -/
theorem tick_muPot (m : Manifold) (hwf : WFcells m.grid) :
    WFcells m.tick.1.grid ∧ m.tick.1.grid.height = m.grid.height ∧
    m.tick.1.grid.width = m.grid.width ∧
    muPot m.tick.1 + m.tick.2 ≤ muPot m := by
  unfold Manifold.tick
  rcases ht : tickBeams { grid := m.grid, new_beams := [], processed := 0 } m.beams
    with ⟨beams1, st⟩
  have hrec := tickBeams_pot m.beams { grid := m.grid, new_beams := [], processed := 0 } hwf
  rw [ht] at hrec
  obtain ⟨hwfst, hhst, hwst, hle⟩ := hrec
  obtain ⟨hg, _, ex, hex, hsub⟩ := foldl_insert_beams st.new_beams
    { m with grid := st.grid, beams := beams1 }
  simp only at hhst hwst hle ⊢
  have hexle : potSum m.grid.height ex ≤ potSum m.grid.height st.new_beams :=
    sublist_sum_le _ _ (hsub.map (beamPot m.grid.height))
  refine ⟨by rw [hg]; exact hwfst, by rw [hg]; exact hhst, by rw [hg]; exact hwst, ?_⟩
  unfold muPot
  rw [hg, hhst, hex]
  have hbex : ({ m with grid := st.grid, beams := beams1 } : Manifold).beams = beams1 := rfl
  rw [hbex, potSum_append]
  simp only [potSum, List.map_nil, List.sum_nil] at hle hexle ⊢
  omega

/-- With fuel exceeding the current potential, the tick loop reaches its
fixed point (a tick that processes zero beams) and exits. -/
theorem runAux_reaches_fixpoint : ∀ (k : Nat) (m : Manifold), WFcells m.grid →
    muPot m ≤ k → ∃ m2, Manifold.runAux (k + 1) m = some m2 := by
  intro k
  induction k with
  | zero =>
    intro m hwf hmu
    obtain ⟨_, _, _, hle⟩ := tick_muPot m hwf
    rcases htick : m.tick with ⟨m1, p⟩
    rw [htick] at hle
    have hp : p = 0 := by
      simp only at hle
      omega
    refine ⟨m1, ?_⟩
    rw [Manifold.runAux]
    simp only [htick]
    rw [if_pos hp]
  | succ k ihk =>
    intro m hwf hmu
    obtain ⟨hwf2, _, _, hle⟩ := tick_muPot m hwf
    rcases htick : m.tick with ⟨m1, p⟩
    rw [htick] at hle hwf2
    by_cases hp : p = 0
    · refine ⟨m1, ?_⟩
      rw [Manifold.runAux]
      simp only [htick]
      rw [if_pos hp]
    · have hwf1 : WFcells m1.grid := hwf2
      have hmu1 : muPot m1 ≤ k := by
        simp only at hle
        omega
      obtain ⟨m2, hm2⟩ := ihk m1 hwf1 hmu1
      refine ⟨m2, ?_⟩
      rw [Manifold.runAux]
      simp only [htick]
      rw [if_neg hp]
      exact hm2

/-- C5: for every well-formed input (successful parse, rectangular lines,
an entrance present), the simulation's tick loop terminates: some fuel
makes `run` return a final manifold, the loop exiting exactly at the first
tick that advances zero previously-active beams (that exit condition is
the definition of `runAux`). -/
theorem C5_run_terminates (lines : List (List Char)) (m : Manifold)
    (hm : Manifold.from_input lines = some m)
    (hrect : ∀ l ∈ lines, l.length = (lines.headD []).length)
    (hstart : (m.start).isSome = true) :
    ∃ fuel m2, m.run fuel = some m2 := by
  obtain ⟨hbeams0, _, hwf⟩ := from_input_wf lines m hm hrect
  rcases hst : m.start with _ | s
  · rw [hst] at hstart
    simp at hstart
  · have hminit : m.simInit = some (m.insert_beam (Beam.new s)) := by
      unfold Manifold.simInit
      rw [hst]
      rfl
    have hwf0 : WFcells (m.insert_beam (Beam.new s)).grid := by
      rw [insert_beam_grid]
      exact hwf
    obtain ⟨m2, hm2⟩ := runAux_reaches_fixpoint (muPot (m.insert_beam (Beam.new s)))
      (m.insert_beam (Beam.new s)) hwf0 (le_refl _)
    refine ⟨muPot (m.insert_beam (Beam.new s)) + 1, m2, ?_⟩
    unfold Manifold.run
    rw [hminit]
    simpa using hm2

theorem C5_witness : ∃ fuel m2, mS.run fuel = some m2 :=
  C5_run_terminates oneCellLines mS (by decide) (by decide) (by decide)

end AoC
